import Mathlib

/-
Verification of the natural-language specification of rubigo's dependency
engine (src/inner/helpers.rs) against a shallow embedding of that code.

Conventions of the embedding:
- Rust strings are Lean `String`s; character-level work happens on `String.data`
  (a `List Char`).  Rust's `to_lowercase`/`trim` are modelled by their ASCII
  behaviour (`Char.toLower`, `Char.isWhitespace`), which coincides with Rust on
  all ASCII input.
- Filesystem paths are lists of segment strings; the filesystem itself is the
  list of directories that currently exist.
- The HTTP capability used by `modify_golang_org` is an explicit oracle record
  describing the outcome of each fallible libcurl step and the response body.
- The two regular expressions of helpers.rs are embedded as backtracking
  matchers with Rust's leftmost-first, greedy semantics.
-/

/-- trimL drops leading ASCII whitespace characters. -/
def trimL : List Char → List Char
  | [] => []
  | c :: cs => if c.isWhitespace then trimL cs else c :: cs

/-- trimBoth drops leading and trailing whitespace, modelling Rust `str::trim`. -/
def trimBoth (l : List Char) : List Char :=
  ((trimL ((trimL l).reverse)).reverse)

/-- trimLower models `input.to_lowercase().trim()` as used by the interactive
prompts of helpers.rs: lowercase every character, then trim whitespace. -/
def trimLower (s : String) : String :=
  String.mk (trimBoth (s.data.map Char.toLower))

/-- parseUsizeL models Rust `str::parse::<usize>` on a character list: an
optional leading plus sign, then one or more ASCII digits, value below 2^64. -/
def parseUsizeL (l : List Char) : Option Nat :=
  let l2 := match l with
    | c :: cs => if c = '+' then cs else l
    | [] => l
  if l2 ≠ [] ∧ l2.all Char.isDigit = true then
    let v := l2.foldl (fun acc c => acc * 10 + (c.toNat - 48)) 0
    if v < 2 ^ 64 then some v else none
  else none

/-- parseUsize models Rust `str::parse::<usize>` on a `String`. -/
def parseUsize (s : String) : Option Nat := parseUsizeL s.data

/-- httpsS is the https scheme prefix written in helpers.rs's regex. -/
def httpsS : String := "https://"

/-- httpS is the http scheme prefix written in helpers.rs's regex. -/
def httpS : String := "http://"

/-- httpsLit is the character list of the https scheme. -/
def httpsLit : List Char := [ 'h', 't', 't', 'p', 's', ':', '/', '/' ]

/-- httpLit is the character list of the http scheme. -/
def httpLit : List Char := [ 'h', 't', 't', 'p', ':', '/', '/' ]

/-- httpsLit_eq ties the character-list form to the scheme string of the source. -/
theorem httpsLit_eq : httpsS.data = httpsLit := rfl

/-- httpLit_eq ties the character-list form to the scheme string of the source. -/
theorem httpLit_eq : httpS.data = httpLit := rfl

/-- isPre is a Boolean prefix test on lists; it matches on the pattern list
first, so that `isPre [] l` reduces definitionally for a variable `l`. -/
def isPre {α : Type} [BEq α] : List α → List α → Bool
  | [], _ => true
  | _ :: _, [] => false
  | a :: as, b :: bs => (a == b) && isPre as bs

/-- isPre_iff: the Boolean prefix test decides the prefix relation. -/
theorem isPre_iff {α : Type} [DecidableEq α] :
    ∀ (l₁ l₂ : List α), isPre l₁ l₂ = true ↔ l₁ <+: l₂ := by
  intro l₁
  induction l₁ with
  | nil =>
    intro l₂
    simp [isPre]
  | cons a as ih =>
    intro l₂
    cases l₂ with
    | nil => simp [isPre]
    | cons b bs =>
      simp [isPre, List.cons_prefix_cons, ih bs, beq_iff_eq, Bool.and_eq_true]

/-- hasSub pat l is true when pat occurs as a contiguous substring of l. -/
def hasSub (pat : List Char) : List Char → Bool
  | [] => pat.isEmpty
  | c :: cs => isPre pat (c :: cs) || hasSub pat cs

/-- stripSchemeFuel is the fuelled worker for `strip_url_scheme`: it scans the
character list left to right and deletes every occurrence of `https://` or
`http://`, exactly as `Regex::new(r"https?://").replace_all(s, "")` does
(the regex alternation prefers the longer `https://` at any position, and the
two alternatives can never both match at one position).  The fuel is the
length of the list, which one unit per consumed character always suffices for. -/
def stripSchemeFuel : Nat → List Char → List Char
  | _, [] => []
  | 0, l => l
  | Nat.succ n, c :: cs =>
    if isPre httpsLit (c :: cs) then stripSchemeFuel n ((c :: cs).drop 8)
    else if isPre httpLit (c :: cs) then stripSchemeFuel n ((c :: cs).drop 7)
    else c :: stripSchemeFuel n cs
termination_by structural n _ => n

/-- strip_url_scheme embeds helpers.rs `strip_url_scheme`: replace every
occurrence of the pattern `https?://` by the empty string.  The
`Regex::new` error branch is dead code because the pattern is a constant that
always compiles, so it is not represented. -/
def strip_url_scheme (pkg_import : String) : String :=
  String.mk (stripSchemeFuel pkg_import.data.length pkg_import.data)

/-- stripFuel_congr: any fuel at least the length of the list computes the same
result, so the choice `fuel = length` in `strip_url_scheme` is canonical. -/
theorem stripFuel_congr : ∀ (n m : Nat) (l : List Char), l.length ≤ n → l.length ≤ m →
    stripSchemeFuel n l = stripSchemeFuel m l := by
  intro n
  induction n with
  | zero =>
    intro m l hn _
    have : l = [] := List.eq_nil_of_length_eq_zero (Nat.le_zero.mp hn)
    subst this
    cases m <;> rfl
  | succ n ih =>
    intro m l hn hm
    cases l with
    | nil => cases m <;> rfl
    | cons c cs =>
      cases m with
      | zero => exact absurd hm (by simp)
      | succ m =>
        simp only [List.length_cons] at hn hm
        simp only [stripSchemeFuel]
        by_cases h8 : isPre httpsLit (c :: cs) = true
        · simp only [h8, if_true]
          apply ih <;> · simp only [List.length_drop, List.length_cons]; omega
        · by_cases h7 : isPre httpLit (c :: cs) = true
          · simp only [h7, h8, if_true]
            simp only [Bool.not_eq_true] at h8
            simp [h8]
            apply ih <;> · simp only [List.length_drop, List.length_cons]; omega
          · simp only [Bool.not_eq_true] at h7 h8
            simp [h7, h8]
            exact ih m cs (by omega) (by omega)

/-- stripFuel_noSub: a list containing neither scheme as a substring is left
unchanged by the scan. -/
theorem stripFuel_noSub : ∀ (n : Nat) (l : List Char), l.length ≤ n →
    hasSub httpLit l = false → hasSub httpsLit l = false →
    stripSchemeFuel n l = l := by
  intro n
  induction n with
  | zero =>
    intro l hn _ _
    have : l = [] := List.eq_nil_of_length_eq_zero (Nat.le_zero.mp hn)
    subst this
    rfl
  | succ n ih =>
    intro l hn h7 h8
    cases l with
    | nil => rfl
    | cons c cs =>
      simp only [List.length_cons] at hn
      simp only [hasSub, Bool.or_eq_false_iff] at h7 h8
      simp only [stripSchemeFuel, h7.1, h8.1]
      simp only [Bool.false_eq_true, if_false]
      rw [ih cs (by omega) h7.2 h8.2]

/-- strEta: rebuilding a string from its character data is the identity. -/
theorem strEta (s : String) : String.mk s.data = s := by
  cases s
  rfl

/-- stripFuel_cons_https: one scan step deletes a leading https scheme. -/
theorem stripFuel_cons_https (m : Nat) (rd : List Char) :
    stripSchemeFuel (Nat.succ m) (httpsLit ++ rd) = stripSchemeFuel m rd := rfl

/-- stripFuel_cons_http: one scan step deletes a leading http scheme. -/
theorem stripFuel_cons_http (m : Nat) (rd : List Char) :
    stripSchemeFuel (Nat.succ m) (httpLit ++ rd) = stripSchemeFuel m rd := rfl

/-- exMid is an import path whose scheme occurrence is not a prefix. -/
def exMid : String := "a/http://b"

/-- exMidRes is what the code maps `exMid` to. -/
def exMidRes : String := "a/b"

/-- exSpecUrl is the worked example of the specification. -/
def exSpecUrl : String := "https://github.com/a/b"

/-- exSpecRes is the scheme-free remainder of the worked example. -/
def exSpecRes : String := "github.com/a/b"

/-- C7 counterexample: the claim says a path with no scheme prefix is returned
unchanged, but `strip_url_scheme` uses `replace_all`, which also deletes
interior occurrences: `a/http://b` becomes `a/b`. -/
theorem C7_counterexample :
    strip_url_scheme exMid = exMidRes ∧ exMid ≠ exMidRes := by
  constructor
  · decide
  · decide

/-- C7 amended: `strip_url_scheme` deletes every occurrence of `http://` or
`https://` (replace-all semantics), it is deterministic and total, the
specification's example still holds, a string containing no occurrence at all
is returned unchanged, and when the scheme occurs only as a leading prefix the
result is the remainder unchanged. -/
theorem C7_amended (r : String)
    (h7 : hasSub httpLit r.data = false) (h8 : hasSub httpsLit r.data = false) :
    strip_url_scheme exSpecUrl = exSpecRes
    ∧ strip_url_scheme r = r
    ∧ strip_url_scheme (httpsS ++ r) = r
    ∧ strip_url_scheme (httpS ++ r) = r := by
  refine ⟨by decide, ?_, ?_, ?_⟩
  · show String.mk (stripSchemeFuel r.data.length r.data) = r
    rw [stripFuel_noSub r.data.length r.data (Nat.le_refl _) h7 h8, strEta]
  · show String.mk (stripSchemeFuel (httpsS ++ r).data.length (httpsS ++ r).data) = r
    have hd : (httpsS ++ r).data = httpsLit ++ r.data := by
      rw [String.data_append, httpsLit_eq]
    rw [hd]
    have hlen : (httpsLit ++ r.data).length = Nat.succ (7 + r.data.length) := by
      simp [httpsLit]
      omega
    rw [hlen, stripFuel_cons_https,
      stripFuel_noSub (7 + r.data.length) r.data (by omega) h7 h8, strEta]
  · show String.mk (stripSchemeFuel (httpS ++ r).data.length (httpS ++ r).data) = r
    have hd : (httpS ++ r).data = httpLit ++ r.data := by
      rw [String.data_append, httpLit_eq]
    rw [hd]
    have hlen : (httpLit ++ r.data).length = Nat.succ (6 + r.data.length) := by
      simp [httpLit]
      omega
    rw [hlen, stripFuel_cons_http,
      stripFuel_noSub (6 + r.data.length) r.data (by omega) h7 h8, strEta]

/-- C7 witness: the amended theorem applied to the concrete remainder
`github.com/a/b`, which contains no scheme occurrence. -/
theorem C7_witness : strip_url_scheme (httpsS ++ exSpecRes) = exSpecRes :=
  (C7_amended exSpecRes (by decide) (by decide)).2.2.1

/-- strQ is the short cancel token of the interactive prompt. -/
def strQ : String := "q"

/-- strQuit is the long cancel token of the interactive prompt. -/
def strQuit : String := "quit"

/-- dfltEntry is an indexing placeholder; every guarded access of the
embedding stays in bounds, so it is never actually selected. -/
def dfltEntry : String × String × String := (String.mk [], String.mk [], String.mk [])

/-- lblTilde is the menu label of the tilde constraint entry. -/
def lblTilde : String := "Tilde (Patch)"

/-- lblCaret is the menu label of the caret constraint entry. -/
def lblCaret : String := "Caret (Minor)"

/-- lblExact is the menu label of the exact constraint entry. -/
def lblExact : String := "Exact (Fixed)"

/-- lblBranch is the menu label of the branch entry. -/
def lblBranch : String := "Branch (HEAD)"

/-- lblLatest is the menu label of the latest-commit entry. -/
def lblLatest : String := "Latest commit"

/-- tildeS is the constraint marker of the tilde entry. -/
def tildeS : String := "~"

/-- caretS is the constraint marker of the caret entry. -/
def caretS : String := "^"

/-- eqS is the constraint marker of the exact entry. -/
def eqS : String := "="

/-- buildVersions embeds the menu-construction part of helpers.rs
`version_prompt` (the `versions` vector): three tag entries when a tag
exists, then a branch entry when a branch exists, then the latest commit.
Each element is `(label, display string, concrete git reference)`. -/
def buildVersions (latest : String) (tag_version : Option (String × String))
    (current_branch : Option String) : List (String × String × String) :=
  (match tag_version with
   | some (tag, ver) =>
     [ (lblTilde, tildeS ++ ver, tag), (lblCaret, caretS ++ ver, tag),
       (lblExact, eqS ++ ver, tag) ]
   | none => []) ++
  (match current_branch with
   | some b => [ (lblBranch, b, b) ]
   | none => []) ++
  [ (lblLatest, latest, latest) ]

/-- parseSelection embeds the input-handling match of helpers.rs
`version_prompt` (the `match get_input(..) { Ok(input) => .. }` arm): the
lowercased, trimmed line cancels on `q`/`quit`, selects entry `index - 1` when
it parses as a usize within `(0, len]`, and otherwise falls back to the last
entry.  The result is `(concrete reference, display string)`. -/
def parseSelection (versions : List (String × String × String)) (input : String) :
    Option (String × String) :=
  let t := trimLower input
  if t = strQ ∨ t = strQuit then none
  else
    match parseUsize t with
    | some index =>
      if index ≤ versions.length ∧ 0 < index then
        some ((versions.getD (index - 1) dfltEntry).2.2,
          (versions.getD (index - 1) dfltEntry).2.1)
      else
        some ((versions.getD (versions.length - 1) dfltEntry).2.2,
          (versions.getD (versions.length - 1) dfltEntry).2.1)
    | none =>
      some ((versions.getD (versions.length - 1) dfltEntry).2.2,
        (versions.getD (versions.length - 1) dfltEntry).2.1)

/-- version_prompt embeds helpers.rs `version_prompt`.  The git queries
(latest commit, latest tag+version, current branch) and the line read from
standard input are external capabilities, passed as `Option` inputs; a `none`
input models an `Err` from `get_input`. -/
def version_prompt (latest_commit : Option String)
    (tag_version : Option (String × String)) (current_branch : Option String)
    (input : Option String) : Option (String × String) :=
  match latest_commit with
  | none => none
  | some latest =>
    if tag_version = none ∧ current_branch = none then some (latest, latest)
    else
      match input with
      | some inp => parseSelection (buildVersions latest tag_version current_branch) inp
      | none => none

/-- parseSelection_q: the bare lowercase cancel token always cancels. -/
theorem parseSelection_q (versions : List (String × String × String)) :
    parseSelection versions strQ = none := by
  simp only [parseSelection]
  rw [if_pos (Or.inl (by decide))]

/-- C1: for every menu and every input line, the lowercased trimmed tokens
`q`/`quit` cancel the selection; an input parsing as a usize in `[1, N]`
returns the 1-based entry's (concrete reference, display string) pair; and
every other input (empty, non-numeric, zero, negative, out of range) returns
the last menu entry, never an error. -/
theorem C1_input_parsing (versions : List (String × String × String))
    (hv : versions ≠ []) (input : String) :
    ((trimLower input = strQ ∨ trimLower input = strQuit) →
      parseSelection versions input = none)
    ∧ (∀ i, parseUsize (trimLower input) = some i → 1 ≤ i → i ≤ versions.length →
      parseSelection versions input =
        some ((versions.getD (i - 1) dfltEntry).2.2,
          (versions.getD (i - 1) dfltEntry).2.1))
    ∧ ((trimLower input ≠ strQ ∧ trimLower input ≠ strQuit) →
      (∀ i, parseUsize (trimLower input) = some i → i = 0 ∨ versions.length < i) →
      parseSelection versions input =
        some ((versions.getD (versions.length - 1) dfltEntry).2.2,
          (versions.getD (versions.length - 1) dfltEntry).2.1)) := by
  refine ⟨?_, ?_, ?_⟩
  · intro h
    simp only [parseSelection]
    rw [if_pos h]
  · intro i hp h1 hn
    have hq : ¬ (trimLower input = strQ ∨ trimLower input = strQuit) := by
      rintro (h | h)
      · rw [h] at hp
        rw [show parseUsize strQ = none from by decide] at hp
        cases hp
      · rw [h] at hp
        rw [show parseUsize strQuit = none from by decide] at hp
        cases hp
    simp only [parseSelection]
    rw [if_neg hq, hp]
    simp only []
    rw [if_pos ⟨hn, h1⟩]
  · intro hq hbound
    have hq2 : ¬ (trimLower input = strQ ∨ trimLower input = strQuit) := by
      rintro (h | h)
      · exact hq.1 h
      · exact hq.2 h
    simp only [parseSelection]
    rw [if_neg hq2]
    cases hp : parseUsize (trimLower input) with
    | none => simp only []
    | some i =>
      simp only []
      rcases hbound i hp with h0 | hgt
      · rw [if_neg]
        rintro ⟨-, hpos⟩
        omega
      · rw [if_neg]
        rintro ⟨hle, -⟩
        omega

/-- wRef is a sample git reference for witness instances. -/
def wRef : String := "c0ffee"

/-- wVers is a sample one-entry menu for witness instances. -/
def wVers : List (String × String × String) := [ (lblLatest, wRef, wRef) ]

/-- C1 witness: on the concrete one-entry menu, input `q` cancels. -/
theorem C1_witness : parseSelection wVers strQ = none :=
  (C1_input_parsing wVers (by decide) strQ).1 (Or.inl (by decide))

/-- C5: with no latest commit the resolution yields no selection; with a
commit but neither tag nor branch it yields `(commit, commit)` regardless of
any input; with both a tag and a branch the menu is exactly the five entries
Tilde, Caret, Exact, Branch, Latest-commit in order (the three tag entries
sharing one tag and prefixed by the three constraint markers); and the final
menu entry is always the latest commit. -/
theorem C5_menu (l tag ver b : String) (tv : Option (String × String))
    (cb : Option String) (inp : Option String) :
    version_prompt none tv cb inp = none
    ∧ version_prompt (some l) none none inp = some (l, l)
    ∧ buildVersions l (some (tag, ver)) (some b) =
        [ (lblTilde, tildeS ++ ver, tag), (lblCaret, caretS ++ ver, tag),
          (lblExact, eqS ++ ver, tag), (lblBranch, b, b), (lblLatest, l, l) ]
    ∧ (buildVersions l tv cb).getLast? = some (lblLatest, l, l) := by
  refine ⟨rfl, by simp [version_prompt], rfl, ?_⟩
  unfold buildVersions
  exact List.getLast?_concat _

/-- C9: when reading the input line fails (an `Err` from `get_input`) while a
menu would be shown, `version_prompt` returns no selection, observably the
same as the user cancelling with `q`. -/
theorem C9_io_error (l : String) (tv : Option (String × String))
    (cb : Option String) (h : ¬ (tv = none ∧ cb = none)) :
    version_prompt (some l) tv cb none = none
    ∧ version_prompt (some l) tv cb none =
        version_prompt (some l) tv cb (some strQ) := by
  constructor
  · simp [version_prompt, h]
  · simp [version_prompt, h, parseSelection_q]

/-- C9 witness: the concrete branch-only repository with a failed read. -/
theorem C9_witness : version_prompt (some wRef) none (some wRef) none = none :=
  (C9_io_error wRef none (some wRef) (by decide)).1

/-- splitSlash splits a character list at every slash, like Rust
`str::split("/")`: the empty string yields one empty segment, and adjacent
slashes yield empty segments. -/
def splitSlash : List Char → List (List Char)
  | [] => [ [] ]
  | c :: cs =>
    if c = '/' then [] :: splitSlash cs
    else
      match splitSlash cs with
      | s :: rest => (c :: s) :: rest
      | [] => [ [ c ] ]

/-- joinSlash re-joins segments with slashes, inverse of splitSlash. -/
def joinSlash : List (List Char) → List Char
  | [] => []
  | [ s ] => s
  | s :: t :: rest => s ++ '/' :: joinSlash (t :: rest)

/-- splitSlash_ne_nil: splitting always produces at least one segment. -/
theorem splitSlash_ne_nil : ∀ l : List Char, splitSlash l ≠ [] := by
  intro l
  cases l with
  | nil => simp [splitSlash]
  | cons c cs =>
    simp only [splitSlash]
    by_cases h : c = '/'
    · simp [h]
    · rw [if_neg h]
      cases hsp : splitSlash cs with
      | nil => simp
      | cons s rest => simp

/-- joinSlash_splitSlash: splitting then joining is the identity, so no
segment is dropped or reordered by splitting. -/
theorem joinSlash_splitSlash : ∀ l : List Char, joinSlash (splitSlash l) = l := by
  intro l
  induction l with
  | nil => rfl
  | cons c cs ih =>
    simp only [splitSlash]
    by_cases h : c = '/'
    · rw [if_pos h]
      cases hsp : splitSlash cs with
      | nil => exact absurd hsp (splitSlash_ne_nil cs)
      | cons s rest =>
        rw [hsp] at ih
        subst h
        simp [joinSlash, ih]
    · rw [if_neg h]
      cases hsp : splitSlash cs with
      | nil => exact absurd hsp (splitSlash_ne_nil cs)
      | cons s rest =>
        rw [hsp] at ih
        cases rest with
        | nil =>
          simp [joinSlash] at ih
          simp [joinSlash, ih]
        | cons t r2 =>
          simp [joinSlash] at ih ⊢
          exact ih

/-- VENDOR_DIR is the vendor-root directory name.  Modelled from the spec:
the constant `VENDOR_DIR` lives in inner/vendor.rs, which is not among the
provided sources; the spec's vendor root and project.rs's
`create_dir(Path::new("vendor"))` fix it as the directory `vendor`.  No claim
depends on the concrete value. -/
def VENDOR_DIR : String := "vendor"

/-- splitSlashStr splits an import path string into its slash segments. -/
def splitSlashStr (s : String) : List String :=
  (splitSlash s.data).map (fun l => String.mk l)

/-- get_path_from_url embeds helpers.rs `get_path_from_url`: a `PathBuf` is
modelled as its list of segments; starting from the vendor root, every
`/`-separated segment of the import path is pushed in order. -/
def get_path_from_url (pkg_import : String) : List String :=
  VENDOR_DIR :: splitSlashStr pkg_import

/-- joinSegs re-joins path segments into a slash-separated string. -/
def joinSegs (segs : List String) : String :=
  String.mk (joinSlash (segs.map String.data))

/-- C6: the vendor path of an import identifier is the vendor root followed by
exactly the identifier's slash-separated segments in order (joining the
segments back gives the identifier, so nothing is dropped or reordered), and
the path is a strict descendant of the vendor root. -/
theorem C6_vendor_path (pkg : String) :
    [ VENDOR_DIR ] <+: get_path_from_url pkg
    ∧ get_path_from_url pkg ≠ [ VENDOR_DIR ]
    ∧ (get_path_from_url pkg).drop 1 = splitSlashStr pkg
    ∧ joinSegs ((get_path_from_url pkg).drop 1) = pkg := by
  refine ⟨⟨splitSlashStr pkg, rfl⟩, ?_, rfl, ?_⟩
  · have hne : splitSlashStr pkg ≠ [] := by
      simp only [splitSlashStr, ne_eq, List.map_eq_nil_iff]
      exact splitSlash_ne_nil pkg.data
    intro h
    apply hne
    have := congrArg List.tail h
    simpa using this
  · show joinSegs (splitSlashStr pkg) = pkg
    simp only [joinSegs, splitSlashStr, List.map_map]
    have hcomp : (String.data ∘ fun l => String.mk l) = fun l : List Char => l := by
      funext l
      rfl
    rw [hcomp, List.map_id', joinSlash_splitSlash, strEta]

/-- hasChild fs p is true when some existing directory is a strict descendant
of p, i.e. p is a non-empty directory. -/
def hasChild (fs : List (List String)) (p : List String) : Bool :=
  fs.any (fun q => isPre p q && decide (q ≠ p))

/-- remove_dir models `fs::remove_dir`: it succeeds exactly on an existing,
empty directory (the empty path never names a directory), removing just that
directory; any other invocation fails. -/
def remove_dir (fs : List (List String)) (p : List String) :
    Option (List (List String)) :=
  if p ≠ [] ∧ p ∈ fs ∧ hasChild fs p = false then
    some (fs.filter (fun q => decide (q ≠ p)))
  else none

/-- remove_dir_all models `fs::remove_dir_all`: it succeeds exactly on an
existing directory, removing it together with its whole subtree. -/
def remove_dir_all (fs : List (List String)) (p : List String) :
    Option (List (List String)) :=
  if p ≠ [] ∧ p ∈ fs then
    some (fs.filter (fun q => !(isPre p q)))
  else none

/-- pruneParentsFuel is the fuelled upward-pruning loop of helpers.rs
`remove_package`: while a parent path remains, try `remove_dir` on it; on
success continue with that parent's parent, on failure stop.  Rust's
`Path::parent` of a one-segment relative path is the empty path, on which
`remove_dir` always fails, which is how the loop ends after the root.  The
fuel is the path length, which one unit per parent step always suffices for. -/
def pruneParentsFuel : Nat → List (List String) → List String → List (List String)
  | _, fs, [] => fs
  | 0, fs, _ :: _ => fs
  | Nat.succ n, fs, a :: as =>
    match remove_dir fs ((a :: as).dropLast) with
    | some fs2 => pruneParentsFuel n fs2 ((a :: as).dropLast)
    | none => fs
termination_by structural n _ _ => n

/-- pruneParents runs the pruning loop with sufficient fuel. -/
def pruneParents (fs : List (List String)) (p : List String) :
    List (List String) :=
  pruneParentsFuel p.length fs p

/-- remove_package embeds helpers.rs `remove_package`: recursively delete the
package's vendor directory; on success prune parents upward while removal
succeeds and return true; on failure report and return false, leaving the
filesystem unchanged. -/
def remove_package (fs : List (List String)) (dir_path : String) :
    List (List String) × Bool :=
  match remove_dir_all fs (get_path_from_url dir_path) with
  | some fs2 => (pruneParents fs2 (get_path_from_url dir_path), true)
  | none => (fs, false)

/-- remove_packages applies remove_package to each name in turn, ignoring the
returned success flag, as remove_diff_packages does. -/
def remove_packages (fs : List (List String)) (names : List String) :
    List (List String) :=
  names.foldl (fun f n => (remove_package f n).1) fs

/-- dropLast_isPre: a list's dropLast is one of its prefixes. -/
theorem dropLast_isPre {α : Type} (l : List α) : l.dropLast <+: l := by
  cases hl : l with
  | nil => exact ⟨[], rfl⟩
  | cons a as =>
    exact ⟨[ (a :: as).getLast (by simp) ], List.dropLast_concat_getLast (by simp)⟩

/-- pruneFuel_keeps: the pruning loop only ever deletes (proper) prefixes of
the starting path; any directory that is not a prefix of the path survives. -/
theorem pruneFuel_keeps : ∀ (n : Nat) (p : List String) (fs : List (List String))
    (q : List String), q ∈ fs → ¬ (q <+: p) → q ∈ pruneParentsFuel n fs p := by
  intro n
  induction n with
  | zero =>
    intro p fs q hq _
    cases p <;> simpa [pruneParentsFuel] using hq
  | succ n ih =>
    intro p fs q hq hnp
    cases p with
    | nil => simpa [pruneParentsFuel] using hq
    | cons a as =>
      simp only [pruneParentsFuel]
      cases hrd : remove_dir fs ((a :: as).dropLast) with
      | none => exact hq
      | some fs2 =>
        have hqpar : q ≠ (a :: as).dropLast := by
          intro he
          exact hnp (he ▸ dropLast_isPre (a :: as))
        have hfs2 : fs2 = fs.filter (fun r => decide (r ≠ (a :: as).dropLast)) := by
          unfold remove_dir at hrd
          split_ifs at hrd with hcond
          injection hrd with h
          exact h.symm
        apply ih
        · rw [hfs2]
          exact List.mem_filter.mpr ⟨hq, by simpa using hqpar⟩
        · intro hpre
          exact hnp (hpre.trans (dropLast_isPre (a :: as)))

/-- prune_keeps: specialisation of pruneFuel_keeps to the actual fuel. -/
theorem prune_keeps (fs : List (List String)) (p q : List String) (hq : q ∈ fs)
    (h : ¬ (q <+: p)) : q ∈ pruneParents fs p :=
  pruneFuel_keeps p.length p fs q hq h

/-- sA is a sample path segment. -/
def sA : String := "a"

/-- sB is a sample path segment. -/
def sB : String := "b"

/-- sC is a sample path segment. -/
def sC : String := "c"

/-- sD is a sample path segment. -/
def sD : String := "d"

/-- sZ is a sample path segment outside the vendor tree. -/
def sZ : String := "z"

/-- exPkg is the nested package of the spec's pruning example. -/
def exPkg : String := "a/b/c"

/-- exBad is a package name whose vendor directory does not exist. -/
def exBad : String := "x/y"

/-- exFS0 is the pruning example: vendor/a/b/c installed next to vendor/a/d. -/
def exFS0 : List (List String) :=
  [ [ VENDOR_DIR ], [ VENDOR_DIR, sA ], [ VENDOR_DIR, sA, sB ],
    [ VENDOR_DIR, sA, sB, sC ], [ VENDOR_DIR, sA, sB, sC ].dropLast.dropLast ++ [ sD ] ]

/-- exFS1 is exFS0 after removing a/b/c and pruning the now-empty a/b. -/
def exFS1 : List (List String) :=
  [ [ VENDOR_DIR ], [ VENDOR_DIR, sA ], [ VENDOR_DIR, sA, sD ] ]

/-- exFS2 holds two sibling packages directly under the vendor root. -/
def exFS2 : List (List String) :=
  [ [ VENDOR_DIR ], [ VENDOR_DIR, sA ], [ VENDOR_DIR, sB ] ]

/-- exFS3 is exFS2 after removing package a (the root keeps a child b). -/
def exFS3 : List (List String) :=
  [ [ VENDOR_DIR ], [ VENDOR_DIR, sB ] ]

/-- exNames removes a missing package first, then an existing one. -/
def exNames : List String := [ exBad, sA ]

/-- C4: removal first recursively deletes the package directory — on failure
the filesystem is untouched, the call reports failure, and later packages are
still processed; on success parents are pruned upward while deletion succeeds.
On the spec's example, removing a/b/c deletes a/b/c and the now-empty a/b but
leaves a (which still holds a/d); and a failed removal does not stop the
removal of the next package. -/
theorem C4_removal (fs : List (List String)) (d : String) :
    (remove_dir_all fs (get_path_from_url d) = none →
      remove_package fs d = (fs, false))
    ∧ (∀ fs2, remove_dir_all fs (get_path_from_url d) = some fs2 →
      remove_package fs d = (pruneParents fs2 (get_path_from_url d), true))
    ∧ remove_package exFS0 exPkg = (exFS1, true)
    ∧ remove_package exFS2 exBad = (exFS2, false)
    ∧ remove_packages exFS2 exNames = exFS3 := by
  refine ⟨?_, ?_, by decide, by decide, by decide⟩
  · intro h
    simp [remove_package, h]
  · intro fs2 h
    simp [remove_package, h]

/-- C4 witness: removal of a package from an empty filesystem fails and leaves
the filesystem unchanged. -/
theorem C4_witness : remove_package ([] : List (List String)) sA = ([], false) :=
  (C4_removal [] sA).1 (by decide)

/-- exRootPkg is the only package of the root-deletion example. -/
def exRootPkg : String := "a/b"

/-- exRootFS is a vendor tree holding exactly one package chain. -/
def exRootFS : List (List String) :=
  [ [ VENDOR_DIR ], [ VENDOR_DIR, sA ], [ VENDOR_DIR, sA, sB ] ]

/-- C10: the pruning loop is bounded only by a failed deletion, not by the
vendor root — when removing the only package leaves every ancestor empty, the
vendor root itself is deleted; and no directory outside the removed subtree
and the chain of ancestor prefixes is ever touched. -/
theorem C10_prune_frame :
    remove_package exRootFS exRootPkg = ([], true)
    ∧ (∀ fs d q, q ∈ fs → isPre (get_path_from_url d) q = false →
      isPre q (get_path_from_url d) = false → q ∈ (remove_package fs d).1) := by
  constructor
  · decide
  · intro fs d q hq hdown hup
    have hup2 : ¬ (q <+: get_path_from_url d) := by
      rw [← isPre_iff, hup]
      simp
    cases hra : remove_dir_all fs (get_path_from_url d) with
    | none =>
      simp only [remove_package, hra]
      exact hq
    | some fs2 =>
      simp only [remove_package, hra]
      apply prune_keeps _ _ _ _ hup2
      have hfs2 : fs2 = fs.filter (fun r => !(isPre (get_path_from_url d) r)) := by
        unfold remove_dir_all at hra
        split_ifs at hra with hcond
        injection hra with h
        exact h.symm
      rw [hfs2]
      exact List.mem_filter.mpr ⟨hq, by simp [hdown]⟩

/-- C10 witness: a directory unrelated to the removed package survives. -/
theorem C10_witness : [ sZ ] ∈ (remove_package [ [ sZ ] ] sA).1 :=
  C10_prune_frame.2 [ [ sZ ] ] sA [ sZ ] (by decide) (by decide) (by decide)

/-- Lock models one parsed lock snapshot: the `git` partition is the list of
the entries' import fields (an entry whose import field is not a string
appears as an inner `none`), the `locals` partition is the list of path
strings likewise; a partition that is JSON null is the outer `none`. -/
structure Lock : Type where
  git : Option (List (Option String))
  locals : Option (List (Option String))

/-- removedDiff lists, in order, the old-partition names that match no name of
the new partition — exactly the names one partition loop of helpers.rs
`remove_diff_packages` passes to remove_package (entries without a string
name are skipped on both sides by the `continue` arms). -/
def removedDiff (oldL newL : List (Option String)) : List String :=
  oldL.filterMap (fun e =>
    match e with
    | none => none
    | some name => if some name ∈ newL then none else some name)

/-- diffRemovals embeds the removal-invocation behaviour of helpers.rs
`remove_diff_packages`: with a null old lock nothing happens; otherwise each
non-null partition of the old lock is diffed against the same partition of
the new lock (a null new partition behaves as empty, since indexing a null
JsonValue yields null and iterating `0..len()` of null is empty). -/
def diffRemovals (old_lock : Option Lock) (new_lock : Lock) : List String :=
  match old_lock with
  | none => []
  | some ol =>
    (match ol.git with
     | none => []
     | some og => removedDiff og (new_lock.git.getD [])) ++
    (match ol.locals with
     | none => []
     | some oldl => removedDiff oldl (new_lock.locals.getD []))

/-- remove_diff_packages embeds helpers.rs `remove_diff_packages` acting on
the modelled filesystem: every diffed name is passed to remove_package in
order, each returned flag ignored. -/
def remove_diff_packages (old_lock : Option Lock) (new_lock : Lock)
    (fs : List (List String)) : List (List String) :=
  remove_packages fs (diffRemovals old_lock new_lock)

/-- mem_removedDiff: a name is diffed out exactly when it is an old name that
appears nowhere in the new partition. -/
theorem mem_removedDiff (oldL newL : List (Option String)) (name : String) :
    name ∈ removedDiff oldL newL ↔ some name ∈ oldL ∧ some name ∉ newL := by
  simp only [removedDiff, List.mem_filterMap]
  constructor
  · rintro ⟨e, he, hm⟩
    cases e with
    | none => simp at hm
    | some m =>
      simp only [] at hm
      split_ifs at hm with hmem
      injection hm with hm2
      subst hm2
      exact ⟨he, hmem⟩
  · rintro ⟨he, hmem⟩
    refine ⟨some name, he, ?_⟩
    simp only []
    rw [if_neg hmem]

/-- C3: reconciliation is a set difference on removal invocations: with an
absent (null) old snapshot nothing is removed regardless of the new snapshot;
otherwise a name is removed exactly when it is an old git-partition import
matching no new git-partition import, or an old local-partition path matching
no new local-partition path — entries present in the new snapshot (and
anything only in the new snapshot) are never removed. -/
theorem C3_lock_diff (ol : Lock) (nw : Lock) (name : String) :
    (∀ nw2 : Lock, diffRemovals none nw2 = [])
    ∧ (name ∈ diffRemovals (some ol) nw ↔
      ((some name ∈ ol.git.getD [] ∧ some name ∉ nw.git.getD [])
        ∨ (some name ∈ ol.locals.getD [] ∧ some name ∉ nw.locals.getD []))) := by
  refine ⟨fun _ => rfl, ?_⟩
  simp only [diffRemovals, List.mem_append]
  cases hg : ol.git <;> cases hl : ol.locals <;>
    simp [hg, hl, mem_removedDiff]

/-- RTok is one token of the two helpers.rs regular expressions: a literal,
a greedy character-class star, the capturing greedy star, or an optional
character. -/
inductive RTok : Type where
  | lit : List Char → RTok
  | star : (Char → Bool) → RTok
  | grp : (Char → Bool) → RTok
  | opt : Char → RTok

/-- firstSome returns the first defined value in a list of options. -/
def firstSome {α : Type} : List (Option α) → Option α
  | [] => none
  | some a :: _ => some a
  | none :: rest => firstSome rest

/-- stripLit consumes an exact literal from the front of the input. -/
def stripLit : List Char → List Char → Option (List Char)
  | [], s => some s
  | _ :: _, [] => none
  | c :: cs, d :: ds => if c = d then stripLit cs ds else none

/-- starSplits lists the ways a greedy class star can split the input, longest
consumed prefix first — the backtracking order of a greedy star. -/
def starSplits (f : Char → Bool) : List Char → List (List Char × List Char)
  | [] => [ ([], []) ]
  | c :: cs =>
    if f c then
      ((starSplits f cs).map (fun p => (c :: p.1, p.2))) ++ [ ([], c :: cs) ]
    else [ ([], c :: cs) ]

/-- matchToksAux is a backtracking matcher with the leftmost-first greedy
semantics of the Rust regex crate, for a token sequence at a fixed start
position; it returns the content of the (single) capture group of a
successful match.  A match need not reach the end of the input.  It is
fuelled by the token count, which one unit per token always suffices for. -/
def matchToksAux : Nat → List RTok → List Char → Option (List Char) →
    Option (List Char)
  | _, [], _, acc => some (acc.getD [])
  | 0, _ :: _, _, _ => none
  | Nat.succ n, t :: ts, s, acc =>
    match t with
    | RTok.lit l =>
      match stripLit l s with
      | some s2 => matchToksAux n ts s2 acc
      | none => none
    | RTok.opt c =>
      match s with
      | [] => matchToksAux n ts [] acc
      | d :: ds =>
        if d = c then
          match matchToksAux n ts ds acc with
          | some r => some r
          | none => matchToksAux n ts (d :: ds) acc
        else matchToksAux n ts (d :: ds) acc
    | RTok.star f =>
      firstSome ((starSplits f s).map (fun p => matchToksAux n ts p.2 acc))
    | RTok.grp f =>
      firstSome ((starSplits f s).map (fun p => matchToksAux n ts p.2 (some p.1)))
termination_by structural n _ _ _ => n

/-- reSearch tries every start position left to right, like `Regex::captures`,
returning the capture of the leftmost-first match. -/
def reSearch (ts : List RTok) : List Char → Option (List Char)
  | [] => matchToksAux ts.length ts [] none
  | c :: cs =>
    match matchToksAux ts.length ts (c :: cs) none with
    | some r => some r
    | none => reSearch ts cs

/-- dotC is the regex class `.`: any character except newline. -/
def dotC (c : Char) : Bool := decide (c ≠ Char.ofNat 10)

/-- notQuote is the regex class excluding the two quote characters. -/
def notQuote (c : Char) : Bool :=
  decide (c ≠ Char.ofNat 39 ∧ c ≠ Char.ofNat 34)

/-- notSlash is the regex class excluding the slash. -/
def notSlash (c : Char) : Bool := decide (c ≠ '/')

/-- goImportLit is the marker literal of the first regex. -/
def goImportLit : List Char := "go-import".data

/-- gitLit is the ` git ` literal of the first regex. -/
def gitLit : List Char := " git ".data

/-- gtLit is the closing bracket literal of the first regex. -/
def gtLit : List Char := ">".data

/-- dSlashLit is the double-slash literal of the second regex. -/
def dSlashLit : List Char := "//".data

/-- slashLit is the single-slash literal of the second regex. -/
def slashLit : List Char := "/".data

/-- pat1 embeds the helpers.rs marker regex: dot-star, `go-import`, dot-star,
` git `, a captured run of non-quote characters, an optional double quote, an
optional single quote, then a closing angle bracket. -/
def pat1 : List RTok :=
  [ RTok.star dotC, RTok.lit goImportLit, RTok.star dotC, RTok.lit gitLit,
    RTok.grp notQuote, RTok.opt (Char.ofNat 34), RTok.opt (Char.ofNat 39),
    RTok.lit gtLit ]

/-- pat2 embeds the helpers.rs suffix regex: a run of non-slash characters,
`//`, a run of non-slash characters, `/`, then the captured dot-star. -/
def pat2 : List RTok :=
  [ RTok.star notSlash, RTok.lit dSlashLit, RTok.star notSlash,
    RTok.lit slashLit, RTok.grp dotC ]

/-- goImportCapture applies the marker regex to the response body, returning
capture group 1 of the leftmost-first match, like `re.captures(buf.as_str())`
followed by `cap.get(1)` in modify_golang_org. -/
def goImportCapture (body : String) : Option String :=
  (reSearch pat1 body.data).map (fun l => String.mk l)

/-- suffixCapture applies the suffix regex to the extracted URL, like the
second `re.captures(url)` and `cap.get(1)` in modify_golang_org. -/
def suffixCapture (url : String) : Option String :=
  (reSearch pat2 url.data).map (fun l => String.mk l)

/-- HttpOracle describes the outcome of each fallible libcurl step performed
by modify_golang_org: whether `handle.url(..)`, `transfer.write_function(..)`
and `transfer.perform()` succeed, and the UTF-8 text accumulated into the
buffer by the write callback. -/
structure HttpOracle : Type where
  urlOk : Bool
  writeOk : Bool
  performOk : Bool
  body : String

/-- goPre is the redirect-capable namespace tested by modify_golang_org. -/
def goPre : String := "golang.org/x"

/-- goPreSlash is the prefix used to rebuild the canonical identifier. -/
def goPreSlash : String := "golang.org/x/"

/-- modify_golang_org embeds helpers.rs `modify_golang_org`.  The two
`Regex::new` error branches are dead code (both patterns are constants that
always compile) and are not represented; the `cap.get(1)` miss branches
cannot occur for a successful match because group 1 of either pattern always
participates, so they are folded into the capture functions. -/
def modify_golang_org (o : HttpOracle) (repo_url : String) :
    String × Option String :=
  if isPre goPre.data repo_url.data then
    if !o.urlOk then (httpS ++ repo_url, none)
    else if !o.writeOk then (httpS ++ repo_url, none)
    else if !o.performOk then (httpS ++ repo_url, none)
    else
      match goImportCapture o.body with
      | none => (httpS ++ repo_url, none)
      | some url =>
        match suffixCapture url with
        | none => (url, none)
        | some p => (url, some (goPreSlash ++ p))
  else (httpS ++ repo_url, none)

/-- C8: for any import path outside the `golang.org/x` namespace the resolver
immediately returns the http-prefixed input with no canonical identifier, and
the result is independent of the HTTP capability — no network call matters. -/
theorem C8_fast_path (o o2 : HttpOracle) (repo_url : String)
    (h : isPre goPre.data repo_url.data = false) :
    modify_golang_org o repo_url = (httpS ++ repo_url, none)
    ∧ modify_golang_org o repo_url = modify_golang_org o2 repo_url := by
  have key : ∀ o3 : HttpOracle, modify_golang_org o3 repo_url =
      (httpS ++ repo_url, none) := by
    intro o3
    unfold modify_golang_org
    rw [if_neg (by simp [h])]
  exact ⟨key o, (key o).trans (key o2).symm⟩

/-- wOracle is a sample HTTP oracle for witness instances. -/
def wOracle : HttpOracle := HttpOracle.mk true true true wRef

/-- C8 witness: a github path is returned http-prefixed with no identifier. -/
theorem C8_witness :
    modify_golang_org wOracle exSpecRes = (httpS ++ exSpecRes, none) :=
  (C8_fast_path wOracle wOracle exSpecRes (by decide)).1

/-- exBody is a response body whose go-import marker names a URL without a
scheme-and-host part. -/
def exBody : String := "a go-import b git foo>"

/-- exFoo is the URL extracted from exBody's marker. -/
def exFoo : String := "foo"

/-- exGoUrl is a redirect-capable import path. -/
def exGoUrl : String := "golang.org/x/net"

/-- exOracle is an oracle whose HTTP steps all succeed with body exBody. -/
def exOracle : HttpOracle := HttpOracle.mk true true true exBody

/-- C2 counterexample: the claim says every step failure — including a failed
trailing-suffix extraction — yields the http-prefixed input; but when the
go-import marker matches and only the suffix extraction fails, the code
returns the extracted URL instead: on body `a go-import b git foo>` the
resolver yields `("foo", none)`, not `("http://golang.org/x/net", none)`. -/
theorem C2_counterexample :
    modify_golang_org exOracle exGoUrl = (exFoo, none)
    ∧ modify_golang_org exOracle exGoUrl ≠ (httpS ++ exGoUrl, none)
    ∧ goImportCapture exBody = some exFoo
    ∧ suffixCapture exFoo = none := by
  refine ⟨by decide, by decide, by decide, by decide⟩

/-- C2 amended: for paths in the `golang.org/x` namespace, a failure when
setting up or performing the HTTP request, or a missing or non-matching
go-import marker, yields exactly `(http-prefixed input, none)`; but when the
marker matches and only the trailing-suffix extraction fails, the resolver
yields `(extracted URL, none)`.  In every case errors are swallowed, never
surfaced. -/
theorem C2_vanity_fallback (o : HttpOracle) (repo_url : String)
    (hgo : isPre goPre.data repo_url.data = true) :
    ((o.urlOk = false ∨ o.writeOk = false ∨ o.performOk = false
        ∨ goImportCapture o.body = none) →
      modify_golang_org o repo_url = (httpS ++ repo_url, none))
    ∧ (∀ u, o.urlOk = true → o.writeOk = true → o.performOk = true →
      goImportCapture o.body = some u → suffixCapture u = none →
      modify_golang_org o repo_url = (u, none)) := by
  constructor
  · intro hfail
    unfold modify_golang_org
    rw [if_pos hgo]
    rcases hfail with h | h | h | h
    · rw [h]
      simp
    · rw [h]
      cases hu : o.urlOk <;> simp
    · rw [h]
      cases hu : o.urlOk <;> cases hw : o.writeOk <;> simp
    · rw [h]
      cases hu : o.urlOk <;> cases hw : o.writeOk <;> cases hp : o.performOk <;> simp
  · intro v hu hw hp hcap hsuf
    unfold modify_golang_org
    rw [if_pos hgo, hu, hw, hp, hcap]
    simp [hsuf]

/-- C2 witness: a failed `handle.url` setup on a golang.org/x path falls back
to the http-prefixed input. -/
theorem C2_witness :
    modify_golang_org (HttpOracle.mk false true true exBody) exGoUrl =
      (httpS ++ exGoUrl, none) :=
  (C2_vanity_fallback (HttpOracle.mk false true true exBody) exGoUrl
    (by decide)).1 (Or.inl rfl)

/-- C3 witness: the null-old-snapshot case at a concrete new snapshot. -/
theorem C3_witness : diffRemovals none (Lock.mk none none) = [] :=
  (C3_lock_diff (Lock.mk none none) (Lock.mk none none) sA).1 (Lock.mk none none)

/-- C5 witness: a repository with no latest commit yields no selection. -/
theorem C5_witness : version_prompt none none none none = none :=
  (C5_menu wRef wRef wRef wRef none none none).1

/-- C6 witness: joining the mapped segments of a/b/c gives back a/b/c. -/
theorem C6_witness : joinSegs ((get_path_from_url exPkg).drop 1) = exPkg :=
  (C6_vendor_path exPkg).2.2.2
